import Mathlib

/-!
Shallow embedding of the grblHAL MSP430F5529 driver (src/drivers/MSP430F5529/driver.c)
and the STM32F4xx serial stream (src/drivers/STM32F4xx/Src/serial.c), with proofs of
the specified properties of the stepper-rate timer, control/limit input mapping,
spindle PWM computation, software debounce, step-pulse sequencing, serial receive
buffer cancellation and coolant state round-trips.

Machine integers are modelled as `Nat` (registers are 16-bit; masking is explicit
where the C code relies on width).  C floats are modelled as exact rationals `ℚ`:
the properties proved are about the algorithm's branch structure and monotone
linear interpolation, not about rounding at float precision.
-/

namespace GrblHAL

/-! ## MSP430 Timer_A register bit constants (from msp430.h) -/

def TACLR : ℕ := 0x0004
def MC0 : ℕ := 0x0010
def MC1 : ℕ := 0x0020
def ID0 : ℕ := 0x0040
def ID1 : ℕ := 0x0080
def TASSEL1 : ℕ := 0x0200
def TAIFG : ℕ := 0x0001

/-- Values of the TAIDEX field in TAxEX0: divisor is field value + 1. -/
def TAIDEX_0 : ℕ := 0
def TAIDEX_7 : ℕ := 7

/-- OUTMOD_2 output-mode bits for a capture/compare control register. -/
def OUTMOD_2 : ℕ := 0x0040

/-- Clearing bits in a 16-bit register: the C idiom `reg &= ~mask` on `uint16_t`. -/
def clearBits (r m : ℕ) : ℕ := r &&& (0xFFFF ^^^ m)

/-- State of the stepper-rate timer peripheral: control register, the TAxEX0
expansion register, and the CCR0 countdown/compare register. -/
structure StepperTimer where
  ctl : ℕ
  ex0 : ℕ
  ccr0 : ℕ
deriving Repr, DecidableEq

/-- Divisor selected by the ID field (bits 6-7) of the timer control register:
field value 0,1,2,3 gives divide by 1,2,4,8. -/
def idDivisor (ctl : ℕ) : ℕ := 2 ^ ((ctl >>> 6) &&& 3)

/-- Divisor selected by the TAIDEX field (bits 0-2) of TAxEX0: field + 1. -/
def exDivisor (ex0 : ℕ) : ℕ := (ex0 &&& 7) + 1

/-- Total input-clock prescale divisor configured in a stepper-timer state. -/
def timerDivisor (st : StepperTimer) : ℕ := idDivisor st.ctl * exDivisor st.ex0

/-- Embedding of `stepperCyclesPerTick` (driver.c lines 92-96), the AMASS version:
`STEPPER_TIMER_CTL |= TACLR; STEPPER_TIMER_CCR0 = cycles_per_tick < (1UL << 16) ?
cycles_per_tick : 0xFFFF;`. -/
def stepperCyclesPerTick (cycles_per_tick : ℕ) (st : StepperTimer) : StepperTimer :=
  { st with
    ctl := st.ctl ||| TACLR,
    ccr0 := if cycles_per_tick < 2 ^ 16 then cycles_per_tick else 0xFFFF }

/-- Embedding of `stepperCyclesPerTickPrescaled` (driver.c lines 99-116), the
"Normal" version.  Each branch programs TAxEX0 and the ID bits of the control
register and rescales `cycles_per_tick`; note that the third branch performs
`STEPPER_TIMER_CTL &= ID0|ID1` exactly as written in the source (an AND, not an
OR).  Finally `CCR0` is programmed with the clamped value and `CTL |= TACLR|MC0`. -/
def stepperCyclesPerTickPrescaled (cycles_per_tick : ℕ) (st : StepperTimer) :
    StepperTimer :=
  let p : StepperTimer × ℕ :=
    if cycles_per_tick < 2 ^ 16 then
      ({ st with ex0 := TAIDEX_0, ctl := clearBits st.ctl (ID0 ||| ID1) }, cycles_per_tick)
    else if cycles_per_tick < 2 ^ 19 then
      ({ st with ex0 := TAIDEX_0, ctl := st.ctl ||| (ID0 ||| ID1) }, cycles_per_tick >>> 3)
    else
      ({ st with ex0 := TAIDEX_7, ctl := st.ctl &&& (ID0 ||| ID1) }, cycles_per_tick >>> 6)
  { p.1 with
    ccr0 := if p.2 < 2 ^ 16 then p.2 else 0xFFFF,
    ctl := p.1.ctl ||| (TACLR ||| MC0) }

/-- Stepper-timer state established by `driver_setup` (driver.c lines 562-565):
`STEPPER_TIMER_EX0 = TAIDEX_0; STEPPER_TIMER_CTL &= ~(ID0|ID1|TAIFG);
STEPPER_TIMER_CTL |= TACLR|TASSEL1;`, starting from the power-on reset value 0. -/
def driverSetupStepperTimer : StepperTimer :=
  { ctl := clearBits 0 (ID0 ||| ID1 ||| TAIFG) ||| (TACLR ||| TASSEL1),
    ex0 := TAIDEX_0,
    ccr0 := 0 }

/-! ## Input mapping: control signals, limit signals, coolant -/

/-- The guarded inversion idiom used throughout driver.c:
`if(settings.<x>_invert.value) signals.value ^= settings.<x>_invert.value;`. -/
def xorGuard (v inv : ℕ) : ℕ := if inv ≠ 0 then v ^^^ inv else v

/-- Raw control-pin levels: the results of testing `CONTROL_PORT_IN & HWCONTROL_MASK`
against `RESET_PIN`, `SAFETY_DOOR_PIN`, `FEED_HOLD_PIN` and `CYCLE_START_PIN`
(the physical pin numbers live in driver.h and do not affect these tests). -/
structure ControlPins where
  reset : Bool
  safety_door : Bool
  feed_hold : Bool
  cycle_start : Bool
deriving Repr, DecidableEq

/-- Bit positions of the `control_signals_t` union (grbl.h): reset is bit 0,
feed_hold bit 1, cycle_start bit 2, safety_door_ajar bit 3. -/
def controlBit_reset : ℕ := 1
def controlBit_feed_hold : ℕ := 2
def controlBit_cycle_start : ℕ := 4
def controlBit_safety_door : ℕ := 8

/-- The if/else-if priority chain of `systemGetState` (driver.c lines 193-200):
reset first, else safety door, else feed hold, else cycle start; it sets
at most one field of the signals value. -/
def controlPrioritySelect (p : ControlPins) : ℕ :=
  if p.reset then controlBit_reset
  else if p.safety_door then controlBit_safety_door
  else if p.feed_hold then controlBit_feed_hold
  else if p.cycle_start then controlBit_cycle_start
  else 0

/-- Embedding of `systemGetState` (driver.c lines 188-206): the priority selection
of a single signal followed by the guarded XOR with `settings.control_invert.value`. -/
def systemGetState (p : ControlPins) (control_invert : ℕ) : ℕ :=
  xorGuard (controlPrioritySelect p) control_invert

/-- Predicate stating that a bitset has at most one bit set. -/
def atMostOneBit (n : ℕ) : Prop := n &&& (n - 1) = 0

instance (n : ℕ) : Decidable (atMostOneBit n) := by
  unfold atMostOneBit; infer_instance

/-- Raw limit-pin levels: the results of the tests
`(flags & X_LIMIT_PIN) == X_LIMIT_PIN` and the like in `limitsGetState`. -/
structure LimitPins where
  x : Bool
  y : Bool
  z : Bool
deriving Repr, DecidableEq

/-- The mapping of raw limit pins to the logical `axes_signals_t` bits performed by
`limitsGetState` (driver.c lines 176-178): x is bit 0, y bit 1, z bit 2. -/
def limitsLogicalMap (p : LimitPins) : ℕ :=
  (if p.x then 1 else 0) ||| (if p.y then 2 else 0) ||| (if p.z then 4 else 0)

/-- Embedding of `limitsGetState` (driver.c lines 171-184): the logical per-axis
mapping followed by the guarded XOR with `settings.limit_invert.value`. -/
def limitsGetState (p : LimitPins) (limit_invert : ℕ) : ℕ :=
  xorGuard (limitsLogicalMap p) limit_invert

/-- Embedding of `coolantSetState` (driver.c lines 343-356): XOR the requested mode
value (`coolant_state_t`: flood is bit 0, mist bit 1) with
`settings.coolant_invert.mask`, then drive the flood and mist output pins from the
resulting bits.  The returned pair is the two written pin levels. -/
def coolantSetState (coolant_invert mode : ℕ) : Bool × Bool :=
  let v := mode ^^^ coolant_invert
  (v.testBit 0, v.testBit 1)

/-- Embedding of `coolantGetState` (driver.c lines 359-370): read the flood and mist
pin levels into bits 0 and 1, then guarded XOR with `settings.coolant_invert.mask`. -/
def coolantGetState (coolant_invert : ℕ) (floodPin mistPin : Bool) : ℕ :=
  xorGuard ((if floodPin then 1 else 0) ||| (if mistPin then 2 else 0)) coolant_invert

/-! ## Spindle PWM rate controller

C floats are modelled as exact rationals; `floorf` is the rational floor and a
cast of a non-negative float to `uint32_t` is `Int.toNat` of that floor. -/

/-- The `spindle_pwm_t` record: PWM period and the derived off/min/max compare
values (all `uint32_t`), plus the float gradient. -/
structure SpindlePWM where
  period : ℕ
  off_value : ℕ
  min_value : ℕ
  max_value : ℕ
  pwm_gradient : ℚ
deriving Repr, DecidableEq

/-- The rpm range fields of `settings_t` used by `spindleComputePWMValue`. -/
structure RPMSettings where
  rpm_min : ℚ
  rpm_max : ℚ
deriving Repr, DecidableEq

/-- The scaling `rpm *= (0.010f * speed_ovr)` at the top of
`spindleComputePWMValue` (driver.c line 271), with the float constant 0.010f
modelled as the exact 1/100. -/
def effectiveRPM (rpm : ℚ) (speed_ovr : ℕ) : ℚ := rpm * ((1 / 100 : ℚ) * speed_ovr)

/-- Embedding of `spindleComputePWMValue` (driver.c lines 267-295): override
scaling, then the three-way policy — clamp to `max_value - 1` when the range is
impossible or the scaled rpm reaches `rpm_max`; `off_value` at exactly zero and
`min_value` below `rpm_min`; otherwise linear interpolation with a floor, clamped
below `max_value`. -/
def spindleComputePWMValue (s : RPMSettings) (pwm : SpindlePWM) (rpm : ℚ)
    (speed_ovr : ℕ) : ℕ :=
  let rpm := effectiveRPM rpm speed_ovr
  if s.rpm_min ≥ s.rpm_max ∨ rpm ≥ s.rpm_max then
    pwm.max_value - 1
  else if rpm ≤ s.rpm_min then
    if rpm = 0 then pwm.off_value else pwm.min_value
  else
    let v := (⌊(rpm - s.rpm_min) * pwm.pwm_gradient⌋).toNat + pwm.min_value
    if v ≥ pwm.max_value then pwm.max_value - 1 else v

/-- The spindle-related settings consumed by `settings_changed`. -/
structure SpindleSettings where
  spindle_pwm_freq : ℚ
  spindle_pwm_off_value : ℚ
  spindle_pwm_min_value : ℚ
  spindle_pwm_max_value : ℚ
  rpm_min : ℚ
  rpm_max : ℚ
deriving Repr, DecidableEq

/-- Embedding of the `spindle_pwm` derivation in `settings_changed` (driver.c
lines 411-415): `period = (uint32_t)(3125000 / freq)`, the off/min/max compare
values as truncated percentages of the period, and
`pwm_gradient = (float)(max_value - min_value) / (rpm_max - rpm_min)` — the
`uint32_t` subtraction wraps modulo `2^32`. -/
def settings_changed_spindle_pwm (s : SpindleSettings) : SpindlePWM :=
  let period : ℕ := (⌊(3125000 : ℚ) / s.spindle_pwm_freq⌋).toNat
  let off_value : ℕ := (⌊(period : ℚ) * s.spindle_pwm_off_value / 100⌋).toNat
  let min_value : ℕ := (⌊(period : ℚ) * s.spindle_pwm_min_value / 100⌋).toNat
  let max_value : ℕ := (⌊(period : ℚ) * s.spindle_pwm_max_value / 100⌋).toNat
  { period := period, off_value := off_value, min_value := min_value,
    max_value := max_value,
    pwm_gradient := (((max_value + 2 ^ 32 - min_value) % 2 ^ 32 : ℕ) : ℚ) /
      (s.rpm_max - s.rpm_min) }

/-- The concrete scenario of the spec: pwm frequency 3125 Hz (giving a period of
exactly 1000 timer units), off 0%, min 5%, max 100%, rpm range 1000 to 24000. -/
def scenarioSettings : SpindleSettings :=
  { spindle_pwm_freq := 3125, spindle_pwm_off_value := 0, spindle_pwm_min_value := 5,
    spindle_pwm_max_value := 100, rpm_min := 1000, rpm_max := 24000 }

/-! ## Software debounce of limit-pin edges

The interrupt-driven debounce logic is modelled as a step relation over the
events that drive it: a limit-pin edge (the body of `limit_isr` with software
debounce enabled, driver.c lines 824-827) and a watchdog-timer tick (the body of
`software_debounce_isr`, lines 793-802, which only runs while the WDT interrupt
enable bit set by `limit_isr` is on).  A tick event carries the limit state
`limitsGetState()` would sample at that moment. -/

inductive DebounceEvent where
  | edge
  | tick (sample : ℕ)
deriving Repr, DecidableEq

/-- The debounce-relevant state: the `debounce_count` counter (a `uint16_t`) and
the WDTIE bit of SFRIE1. -/
structure DebounceState where
  debounce_count : ℕ
  wdtie : Bool
deriving Repr, DecidableEq

/-- One interrupt: an edge re-arms the watchdog, enables its interrupt and sets
`debounce_count = 3`; a tick (which fires only while WDTIE is set) executes
`if(!--debounce_count)` — the decrement wraps at zero like the `uint16_t` it
embeds — and on reaching zero disables WDTIE, re-samples the limit state and
invokes the limit callback if the sample is non-zero.  The returned list is the
sequence of limit-callback invocations this interrupt makes. -/
def debounceStep (st : DebounceState) (e : DebounceEvent) : DebounceState × List ℕ :=
  match e with
  | .edge => ({ debounce_count := 3, wdtie := true }, [])
  | .tick sample =>
      if st.wdtie then
        let c := if st.debounce_count = 0 then 0xFFFF else st.debounce_count - 1
        if c = 0 then
          ({ debounce_count := c, wdtie := false },
           if sample ≠ 0 then [sample] else [])
        else ({ debounce_count := c, wdtie := true }, [])
      else (st, [])

/-- Run a sequence of interrupt events, accumulating the limit callbacks. -/
def debounceRun (st : DebounceState) : List DebounceEvent → DebounceState × List ℕ
  | [] => (st, [])
  | e :: es =>
      let r := debounceStep st e
      let r2 := debounceRun r.1 es
      (r2.1, r.2 ++ r2.2)

/-- A bounce sequence: one edge per segment, each segment followed by the ticks
(with arbitrary bouncing samples) that elapse before the next edge. -/
def bounceTrace : List (List ℕ) → List DebounceEvent
  | [] => []
  | seg :: segs => DebounceEvent.edge :: (seg.map DebounceEvent.tick ++ bounceTrace segs)

/-- After the last edge the inputs settle to state S: the debounce window runs
its full three ticks, each sampling S. -/
def settleTrace (S : ℕ) : List DebounceEvent := List.replicate 3 (DebounceEvent.tick S)

/-! ## Step pulse start sequencing

`stepperPulseStart` is modelled as a generator of the sequence of hardware
effects it performs, in program order. -/

/-- The externally-visible register writes performed on the step-pulse path. -/
inductive DriverEffect where
  | spindleEnableWrite (level : Bool)
  | pwmCCR1 (v : ℕ)
  | pwmCCTL1 (v : ℕ)
  | dirWrite (v : ℕ)
  | stepWrite (v : ℕ)
  | pulseTimerStart
deriving Repr, DecidableEq

/-- Configuration consumed by `spindleSetSpeed`: `hal.spindle_pwm_off`, the
`spindle_disable_with_zero_speed` settings flag, and `settings.spindle_invert.on`. -/
structure SpindleSpeedCfg where
  spindle_pwm_off : ℕ
  spindle_disable_with_zero_speed : Bool
  spindle_invert_on : Bool
deriving Repr, DecidableEq

/-- Embedding of `spindleSetSpeed` (driver.c lines 298-314).  Given the cached
`pwmEnabled` flag and the requested duty, it returns the new `pwmEnabled` flag,
the returned duty value, and the effect sequence: at the off value it optionally
drives the spindle enable pin to its off level (`spindleOff`, level =
`spindle_invert.on`) and clears `PWM_TIMER_CCTL1`; otherwise it drives the enable
pin on when PWM was disabled, programs `PWM_TIMER_CCR1` with the duty and sets
`OUTMOD_2`. -/
def spindleSetSpeed (cfg : SpindleSpeedCfg) (pwmEnabled : Bool) (pwm_value : ℕ) :
    Bool × ℕ × List DriverEffect :=
  if pwm_value = cfg.spindle_pwm_off then
    (false, pwm_value,
      (if cfg.spindle_disable_with_zero_speed then
         [DriverEffect.spindleEnableWrite cfg.spindle_invert_on] else []) ++
      [DriverEffect.pwmCCTL1 0])
  else
    (true, pwm_value,
      (if pwmEnabled then []
       else [DriverEffect.spindleEnableWrite (!cfg.spindle_invert_on)]) ++
      [DriverEffect.pwmCCR1 pwm_value, DriverEffect.pwmCCTL1 OUTMOD_2])

/-- The `stepper_t` descriptor fields read by `stepperPulseStart`. -/
structure Stepper where
  step_outbits : ℕ
  dir_outbits : ℕ
  spindle_pwm : ℕ
deriving Repr, DecidableEq

/-- The static state of `stepperPulseStart`: the cached `current_pwm` and the
`pwmEnabled` flag mutated by `spindleSetSpeed`. -/
structure PulseStartState where
  current_pwm : ℕ
  pwmEnabled : Bool
deriving Repr, DecidableEq

/-- Embedding of `stepperSetDirOutputs` (driver.c lines 127-130): the direction
port is written with the bits XOR-ed with the direction inversion mask. -/
def stepperSetDirOutputs (dir_port_invert v : ℕ) : DriverEffect :=
  DriverEffect.dirWrite (v ^^^ dir_port_invert)

/-- Embedding of `stepperSetStepOutputs` (driver.c lines 120-123): the step port
is written with the inverted bits shifted left by one into the hardware field. -/
def stepperSetStepOutputs (step_port_invert v : ℕ) : DriverEffect :=
  DriverEffect.stepWrite ((v ^^^ step_port_invert) <<< 1)

/-- Embedding of `stepperPulseStart` (driver.c lines 134-145): if the
descriptor's spindle duty differs from the cached `current_pwm`, call
`spindleSetSpeed` (updating the cache from its return value); then write the
direction outputs, then the step outputs, then start the pulse-width one-shot
timer (`PULSE_TIMER_CTL |= TACLR|MC0`). -/
def stepperPulseStart (cfg : SpindleSpeedCfg) (step_inv dir_inv : ℕ)
    (st : PulseStartState) (stepper : Stepper) :
    PulseStartState × List DriverEffect :=
  let p : PulseStartState × List DriverEffect :=
    if stepper.spindle_pwm ≠ st.current_pwm then
      let r := spindleSetSpeed cfg st.pwmEnabled stepper.spindle_pwm
      ({ current_pwm := r.2.1, pwmEnabled := r.1 }, r.2.2)
    else (st, [])
  (p.1, p.2 ++
    [stepperSetDirOutputs dir_inv stepper.dir_outbits,
     stepperSetStepOutputs step_inv stepper.step_outbits,
     DriverEffect.pulseTimerStart])

/-- Classifier: effects touching the spindle PWM hardware (PWM timer compare
registers and the spindle enable pin). -/
def DriverEffect.isSpindle : DriverEffect → Bool
  | .spindleEnableWrite _ => true
  | .pwmCCR1 _ => true
  | .pwmCCTL1 _ => true
  | _ => false

/-! ## STM32F4xx serial receive buffer (serial.c) -/

/-- The ASCII cancel character written by `serialRxCancel`. -/
def ASCII_CAN : ℕ := 24

/-- The receive ring buffer `stream_rx_buffer_t`: backing array (indexed beyond
the live region too, hence a total function), producer index `head` and consumer
index `tail`. -/
structure RxBuffer where
  data : ℕ → ℕ
  head : ℕ
  tail : ℕ

/-- Embedding of `serialRxCancel` (serial.c lines 104-109): store ASCII_CAN at
`head`, set `tail = head`, then `head = (tail + 1) & (RX_BUFFER_SIZE - 1)`.
The buffer size is a parameter (a power of two in the hypotheses). -/
def serialRxCancel (size : ℕ) (b : RxBuffer) : RxBuffer :=
  { data := fun i => if i = b.head then ASCII_CAN else b.data i,
    tail := b.head,
    head := (b.head + 1) &&& (size - 1) }

/-- Embedding of `serialGetC` (serial.c lines 171-182): return -1 when the
buffer is empty (`tail == head`), otherwise return the character at `tail` and
advance `tail` modulo the buffer size. -/
def serialGetC (size : ℕ) (b : RxBuffer) : ℤ × RxBuffer :=
  if b.tail = b.head then (-1, b)
  else ((b.data b.tail : ℤ), { b with tail := (b.tail + 1) &&& (size - 1) })

end GrblHAL

namespace GrblHAL

/-- C1: both rate setters always program a countdown register value of at most
0xFFFF, and for `cycles_per_tick` below the first prescale threshold `2^16` the
programmed countdown value equals the input unchanged. -/
theorem cyclesPerTick_programmed_value (cycles : ℕ) (st : StepperTimer) :
    (stepperCyclesPerTick cycles st).ccr0 ≤ 0xFFFF ∧
    (stepperCyclesPerTickPrescaled cycles st).ccr0 ≤ 0xFFFF ∧
    (cycles < 2 ^ 16 →
      (stepperCyclesPerTick cycles st).ccr0 = cycles ∧
      (stepperCyclesPerTickPrescaled cycles st).ccr0 = cycles) := by
  unfold stepperCyclesPerTick stepperCyclesPerTickPrescaled
  refine ⟨?_, ?_, fun h => ⟨?_, ?_⟩⟩ <;> simp only <;> split_ifs <;> simp_all <;> omega

/-- C1 witness: at the concrete input 1234 (below the threshold) the prescaled
setter programs exactly 1234 and both programmed values are within range. -/
theorem cyclesPerTick_programmed_value_witness :
    (stepperCyclesPerTickPrescaled 1234 driverSetupStepperTimer).ccr0 = 1234 :=
  ((cyclesPerTick_programmed_value 1234 driverSetupStepperTimer).2.2 (by decide)).2

/-- C2: at the failing input `cycles_per_tick = 2^19` from the timer state left
by `driver_setup` (ID divider bits clear), the third branch of
`stepperCyclesPerTickPrescaled` right-shifts the cycles by 6 (divide by 64) but
configures a total prescale divisor of only 8, because the source performs
`STEPPER_TIMER_CTL &= ID0|ID1` (preserving the previously-clear ID bits) instead
of setting them; the divisor does not match the applied shift. -/
theorem prescaled_third_branch_divisor_mismatch :
    (stepperCyclesPerTickPrescaled (2 ^ 19) driverSetupStepperTimer).ccr0 = 2 ^ 19 / 2 ^ 6 ∧
    timerDivisor (stepperCyclesPerTickPrescaled (2 ^ 19) driverSetupStepperTimer) = 8 ∧
    timerDivisor (stepperCyclesPerTickPrescaled (2 ^ 19) driverSetupStepperTimer) ≠ 2 ^ 6 := by
  refine ⟨?_, by decide, by decide⟩
  decide

/-- Helper: the guarded inversion of driver.c is an unconditional XOR
(XOR with zero is the identity). -/
theorem xorGuard_eq (v inv : ℕ) : xorGuard v inv = v ^^^ inv := by
  unfold xorGuard
  split_ifs with h
  · rfl
  · simp only [ne_eq, not_not] at h
    subst h
    simp

/-- C3 counterexample: with all raw control pins low and the control inversion
mask 3 (reset and feed-hold inverted, a legitimate active-low configuration),
`systemGetState` returns the value 3, which has two signal bits set — the claim
that the returned value always has at most one bit set is false. -/
theorem systemGetState_two_bits_counterexample :
    ¬ atMostOneBit (systemGetState ⟨false, false, false, false⟩ 3) := by decide

/-- C3 amended: the priority-selected signal value has at most one bit set
(first match among reset > safety-door > feed-hold > cycle-start wins), and the
value `systemGetState` returns is that single-bit selection XOR-ed with the
inversion mask afterwards; the returned value itself can have several bits set. -/
theorem systemGetState_priority_then_invert (p : ControlPins) (inv : ℕ) :
    atMostOneBit (controlPrioritySelect p) ∧
    systemGetState p inv = controlPrioritySelect p ^^^ inv := by
  constructor
  · rcases p with ⟨r, d, f, c⟩
    cases r <;> cases d <;> cases f <;> cases c <;> decide
  · exact xorGuard_eq _ _

/-- C4: for every configured limit inversion mask M and every raw limit-pin
pattern, `limitsGetState` returns the logical per-axis mapping XOR-ed with M
exactly once, and XOR-ing the returned bitset with M twice is the identity. -/
theorem limitsGetState_inversion (p : LimitPins) (M : ℕ) :
    limitsGetState p M = limitsLogicalMap p ^^^ M ∧
    (limitsGetState p M ^^^ M) ^^^ M = limitsGetState p M := by
  refine ⟨xorGuard_eq _ _, ?_⟩
  simp [Nat.xor_assoc]

/-- C10: for every coolant mode and inversion mask, writing the state with
`coolantSetState` and reading it back with `coolantGetState` (the output pins
reading back what was written) returns the original flood and mist bits: the
inversion XOR is applied once on write and once on read and cancels. -/
theorem coolant_set_get_roundtrip (inv mode : ℕ) :
    (coolantGetState inv (coolantSetState inv mode).1 (coolantSetState inv mode).2).testBit 0
        = mode.testBit 0 ∧
    (coolantGetState inv (coolantSetState inv mode).1 (coolantSetState inv mode).2).testBit 1
        = mode.testBit 1 := by
  unfold coolantSetState coolantGetState
  dsimp only
  rw [xorGuard_eq]
  have h0 : ∀ (a b : Bool), (((if a then 1 else 0) ||| (if b then 2 else 0) : ℕ)).testBit 0 = a := by
    decide
  have h1 : ∀ (a b : Bool), (((if a then 1 else 0) ||| (if b then 2 else 0) : ℕ)).testBit 1 = b := by
    decide
  constructor
  · rw [Nat.testBit_xor, h0, Nat.testBit_xor]
    cases mode.testBit 0 <;> cases inv.testBit 0 <;> rfl
  · rw [Nat.testBit_xor, h1, Nat.testBit_xor]
    cases mode.testBit 1 <;> cases inv.testBit 1 <;> rfl

/-- C5: under a valid configuration (`0 ≤ rpm_min < rpm_max`,
`off_value < min_value < max_value`, non-negative gradient), the duty computed by
`spindleComputePWMValue` is monotonically non-decreasing in the effective
(override-scaled) rpm within the linear region, equals exactly `max_value - 1`
whenever the effective rpm reaches `rpm_max` (and, for any configuration,
whenever `rpm_min ≥ rpm_max`), and equals `off_value` precisely when the
effective rpm is zero. -/
theorem spindleComputePWMValue_spec (s : RPMSettings) (pwm : SpindlePWM)
    (hmin0 : 0 ≤ s.rpm_min) (hrange : s.rpm_min < s.rpm_max)
    (hoff : pwm.off_value < pwm.min_value) (hminmax : pwm.min_value < pwm.max_value)
    (hgrad : 0 ≤ pwm.pwm_gradient) :
    (∀ r1 r2 ovr,
        s.rpm_min < effectiveRPM r1 ovr →
        effectiveRPM r2 ovr < s.rpm_max →
        effectiveRPM r1 ovr ≤ effectiveRPM r2 ovr →
        spindleComputePWMValue s pwm r1 ovr ≤ spindleComputePWMValue s pwm r2 ovr) ∧
    (∀ r ovr, s.rpm_max ≤ effectiveRPM r ovr →
        spindleComputePWMValue s pwm r ovr = pwm.max_value - 1) ∧
    (∀ (s2 : RPMSettings) (pwm2 : SpindlePWM) (r : ℚ) (ovr : ℕ),
        s2.rpm_max ≤ s2.rpm_min →
        spindleComputePWMValue s2 pwm2 r ovr = pwm2.max_value - 1) ∧
    (∀ r ovr, spindleComputePWMValue s pwm r ovr = pwm.off_value ↔
        effectiveRPM r ovr = 0) := by
  have eval3 : ∀ (r : ℚ) (ovr : ℕ), s.rpm_min < effectiveRPM r ovr →
      effectiveRPM r ovr < s.rpm_max →
      spindleComputePWMValue s pwm r ovr =
        (if (⌊(effectiveRPM r ovr - s.rpm_min) * pwm.pwm_gradient⌋).toNat + pwm.min_value
            ≥ pwm.max_value
         then pwm.max_value - 1
         else (⌊(effectiveRPM r ovr - s.rpm_min) * pwm.pwm_gradient⌋).toNat + pwm.min_value) := by
    intro r ovr ha hb
    simp only [spindleComputePWMValue]
    rw [if_neg (by push_neg; exact ⟨hrange, hb⟩ : _), if_neg (not_le.mpr ha)]
  refine ⟨?_, ?_, ?_, ?_⟩
  · intro r1 r2 ovr h1 h2 h12
    have e1max : effectiveRPM r1 ovr < s.rpm_max := lt_of_le_of_lt h12 h2
    have e2min : s.rpm_min < effectiveRPM r2 ovr := lt_of_lt_of_le h1 h12
    rw [eval3 r1 ovr h1 e1max, eval3 r2 ovr e2min h2]
    have hfl : ⌊(effectiveRPM r1 ovr - s.rpm_min) * pwm.pwm_gradient⌋ ≤
        ⌊(effectiveRPM r2 ovr - s.rpm_min) * pwm.pwm_gradient⌋ :=
      Int.floor_mono (mul_le_mul_of_nonneg_right (sub_le_sub_right h12 _) hgrad)
    have htn := Int.toNat_le_toNat hfl
    split_ifs <;> omega
  · intro r ovr h
    simp only [spindleComputePWMValue]
    rw [if_pos (Or.inr h)]
  · intro s2 pwm2 r ovr h
    simp only [spindleComputePWMValue]
    rw [if_pos (Or.inl h)]
  · intro r ovr
    constructor
    · intro h
      by_contra hne
      revert h
      simp only [spindleComputePWMValue]
      split_ifs with hc1 hc2 hc3 <;> intro hh <;> omega
    · intro h
      simp only [spindleComputePWMValue, h]
      rw [if_neg (by push_neg; exact ⟨hrange, lt_of_le_of_lt hmin0 hrange⟩ : _),
          if_pos hmin0]
      simp

/-- C5 witness: with the valid scenario configuration (rpm range 1000-24000,
off 0, min 50, max 1000, gradient 950/23000 = 19/460), an effective rpm at
`rpm_max` yields exactly `max_value - 1 = 999`. -/
theorem spindleComputePWMValue_spec_witness :
    spindleComputePWMValue ⟨1000, 24000⟩ ⟨1000, 0, 50, 1000, 19 / 460⟩ 24000 100 = 999 := by
  have h := spindleComputePWMValue_spec ⟨1000, 24000⟩ ⟨1000, 0, 50, 1000, 19 / 460⟩
    (by norm_num) (by norm_num) (by norm_num) (by norm_num) (by norm_num)
  have h2 := h.2.1 24000 100 (by norm_num [effectiveRPM])
  simpa using h2

/-- Helper: the derived spindle PWM record of the concrete scenario. -/
theorem scenario_pwm_eq : settings_changed_spindle_pwm scenarioSettings =
    { period := 1000, off_value := 0, min_value := 50, max_value := 1000,
      pwm_gradient := 19 / 460 } := by
  simp only [settings_changed_spindle_pwm, scenarioSettings]
  have h1 : ⌊(3125000 : ℚ) / 3125⌋.toNat = 1000 := by norm_num; decide
  rw [h1]
  have h2 : ⌊((1000 : ℕ) : ℚ) * 0 / 100⌋.toNat = 0 := by norm_num
  have h3 : ⌊((1000 : ℕ) : ℚ) * 5 / 100⌋.toNat = 50 := by norm_num; decide
  have h4 : ⌊((1000 : ℕ) : ℚ) * 100 / 100⌋.toNat = 1000 := by norm_num; decide
  rw [h2, h3, h4]
  have h5 : ((1000 + 2 ^ 32 - 50) % 2 ^ 32 : ℕ) = 950 := by decide
  rw [h5]
  norm_num

/-- C6: with rpm range 1000-24000 and pwm percentages off 0, min 5, max 100 at a
period of 1000 units, `settings_changed` derives min_value 50 and max_value 1000,
and `spindleComputePWMValue` returns 50 at rpm 1000, 999 at rpm 24000, and the
off value 0 at rpm 0 (all at 100% override). -/
theorem scenario_duty_values :
    (settings_changed_spindle_pwm scenarioSettings).period = 1000 ∧
    (settings_changed_spindle_pwm scenarioSettings).off_value = 0 ∧
    (settings_changed_spindle_pwm scenarioSettings).min_value = 50 ∧
    (settings_changed_spindle_pwm scenarioSettings).max_value = 1000 ∧
    spindleComputePWMValue ⟨1000, 24000⟩ (settings_changed_spindle_pwm scenarioSettings)
      1000 100 = 50 ∧
    spindleComputePWMValue ⟨1000, 24000⟩ (settings_changed_spindle_pwm scenarioSettings)
      24000 100 = 999 ∧
    spindleComputePWMValue ⟨1000, 24000⟩ (settings_changed_spindle_pwm scenarioSettings)
      0 100 = 0 := by
  rw [scenario_pwm_eq]
  refine ⟨rfl, rfl, rfl, rfl, ?_, ?_, ?_⟩ <;>
    · simp only [spindleComputePWMValue, effectiveRPM]
      norm_num

/-- Helper: running a trace split in two runs the second part from the state the
first part ends in, concatenating the emitted callbacks. -/
theorem debounceRun_append (st : DebounceState) (t1 t2 : List DebounceEvent) :
    debounceRun st (t1 ++ t2) =
      ((debounceRun (debounceRun st t1).1 t2).1,
       (debounceRun st t1).2 ++ (debounceRun (debounceRun st t1).1 t2).2) := by
  induction t1 generalizing st with
  | nil => simp [debounceRun]
  | cons e es ih => simp [debounceRun, ih]

/-- Helper: while the armed countdown exceeds the number of elapsed ticks, no
callback fires and the counter just decrements. -/
theorem ticks_no_fire (seg : List ℕ) (c : ℕ) (h : seg.length < c) :
    debounceRun ⟨c, true⟩ (seg.map DebounceEvent.tick) =
      (⟨c - seg.length, true⟩, []) := by
  induction seg generalizing c with
  | nil => simp [debounceRun]
  | cons a tl ih =>
      have hc0 : ¬ c = 0 := by simp at h; omega
      have hc1 : ¬ c - 1 = 0 := by simp at h; omega
      simp only [List.map_cons, debounceRun, debounceStep, hc0, if_false, hc1, if_true]
      rw [ih (c - 1) (by simp at h ⊢; omega)]
      simp at h ⊢
      omega

/-- Helper: from an armed window with 1 to 3 remaining ticks, three settled
ticks sampling S produce exactly one callback carrying S when S is non-zero and
none when S is zero. -/
theorem settle_fires_once (c S : ℕ) (h1 : 1 ≤ c) (h2 : c ≤ 3) :
    (debounceRun ⟨c, true⟩ (settleTrace S)).2 = if S = 0 then [] else [S] := by
  interval_cases c <;>
    simp [settleTrace, debounceRun, debounceStep, List.replicate, ite_not]

/-- Helper: the debounce property holds from every starting state, since the
first edge unconditionally re-arms the window. -/
theorem debounce_general (segs : List (List ℕ)) (S : ℕ) (st : DebounceState)
    (hne : segs ≠ [])
    (hshort : ∀ seg ∈ segs, seg.length < 3) :
    (debounceRun st (bounceTrace segs ++ settleTrace S)).2 =
      if S = 0 then [] else [S] := by
  induction segs generalizing st with
  | nil => exact absurd rfl hne
  | cons seg segs ih =>
      have hseg : seg.length < 3 := hshort seg (List.mem_cons_self _ _)
      have hunf : bounceTrace (seg :: segs) =
          DebounceEvent.edge :: (seg.map DebounceEvent.tick ++ bounceTrace segs) := rfl
      rw [hunf, List.cons_append, List.append_assoc]
      cases segs with
      | nil =>
          simp only [bounceTrace, List.nil_append]
          simp only [debounceRun, debounceStep]
          rw [debounceRun_append, ticks_no_fire seg 3 hseg]
          simp [settle_fires_once (3 - seg.length) S (by omega) (by omega)]
      | cons seg2 segs2 =>
          simp only [debounceRun, debounceStep]
          rw [debounceRun_append, ticks_no_fire seg 3 hseg]
          simp only [List.nil_append, List.append_nil]
          exact ih ⟨3 - seg.length, true⟩ (by simp)
            (fun s hs => hshort s (List.mem_cons_of_mem _ hs))

/-- C7: with software debounce enabled and starting from the idle state, any
sequence of N ≥ 1 limit-pin edges, each followed by fewer than three watchdog
ticks (the window is re-armed to 3 on every edge), then settling to state S for
the full three-tick window, produces exactly one limit callback carrying S when
S is non-zero — not N callbacks — and no callback when the settled re-sampled
state is all-zero. -/
theorem debounce_single_callback (segs : List (List ℕ)) (S : ℕ)
    (hne : segs ≠ [])
    (hshort : ∀ seg ∈ segs, seg.length < 3) :
    (debounceRun ⟨0, false⟩ (bounceTrace segs ++ settleTrace S)).2 =
      if S = 0 then [] else [S] :=
  debounce_general segs S _ hne hshort

/-- C7 witness: two bounce edges (with 2 and 1 intervening ticks of noisy
samples) settling to the state 2 produce exactly the one callback [2]. -/
theorem debounce_single_callback_witness :
    (debounceRun ⟨0, false⟩ (bounceTrace [[5, 0], [7]] ++ settleTrace 2)).2 = [2] := by
  have h := debounce_single_callback [[5, 0], [7]] 2 (by simp) (by simp)
  simpa using h

/-- C8: the effect sequence of `stepperPulseStart` is: when the descriptor's
duty equals the cached one, exactly a direction write, then a step write, then
the pulse-timer start — no PWM register is touched; when the duty differs, a
non-empty prefix of spindle-PWM effects (containing the PWM reprogramming write)
comes before the direction write, the step write and the pulse-timer start, in
that order. -/
theorem stepperPulseStart_order (cfg : SpindleSpeedCfg) (step_inv dir_inv : ℕ)
    (st : PulseStartState) (stepper : Stepper) :
    (stepper.spindle_pwm = st.current_pwm →
        (stepperPulseStart cfg step_inv dir_inv st stepper).2 =
          [stepperSetDirOutputs dir_inv stepper.dir_outbits,
           stepperSetStepOutputs step_inv stepper.step_outbits,
           DriverEffect.pulseTimerStart]) ∧
    (stepper.spindle_pwm ≠ st.current_pwm →
        ∃ pe, (∀ e ∈ pe, e.isSpindle = true) ∧
          DriverEffect.pwmCCTL1
            (if stepper.spindle_pwm = cfg.spindle_pwm_off then 0 else OUTMOD_2) ∈ pe ∧
          (stepperPulseStart cfg step_inv dir_inv st stepper).2 =
            pe ++ [stepperSetDirOutputs dir_inv stepper.dir_outbits,
                   stepperSetStepOutputs step_inv stepper.step_outbits,
                   DriverEffect.pulseTimerStart]) := by
  constructor
  · intro h
    simp [stepperPulseStart, h]
  · intro h
    refine ⟨(spindleSetSpeed cfg st.pwmEnabled stepper.spindle_pwm).2.2, ?_, ?_, ?_⟩
    · intro e he
      unfold spindleSetSpeed at he
      cases e <;> first | rfl | (split_ifs at he <;> simp_all)
    · unfold spindleSetSpeed
      split_ifs with h1 <;> simp
    · simp [stepperPulseStart, h]

/-- C8 witness: with an unchanged duty (5 = cached 5), the effects are exactly
direction write, step write, pulse-timer start. -/
theorem stepperPulseStart_order_witness :
    (stepperPulseStart ⟨0, false, false⟩ 0 0 ⟨5, true⟩ ⟨1, 2, 5⟩).2 =
      [stepperSetDirOutputs 0 2, stepperSetStepOutputs 0 1, DriverEffect.pulseTimerStart] :=
  (stepperPulseStart_order ⟨0, false, false⟩ 0 0 ⟨5, true⟩ ⟨1, 2, 5⟩).1 rfl

/-- C9: for every prior receive-buffer state (with the buffer size a power of
two of at least 2 and head in range), after `serialRxCancel` the buffer holds
exactly one pending character: the next `serialGetC` returns ASCII_CAN (24) and
the one after that returns -1. -/
theorem serialRxCancel_then_getC (k : ℕ) (b : RxBuffer)
    (hk : 1 ≤ k) (hhead : b.head < 2 ^ k) :
    (serialGetC (2 ^ k) (serialRxCancel (2 ^ k) b)).1 = (ASCII_CAN : ℤ) ∧
    (serialGetC (2 ^ k) ((serialGetC (2 ^ k) (serialRxCancel (2 ^ k) b)).2)).1 = -1 := by
  have hmod : (b.head + 1) &&& (2 ^ k - 1) = (b.head + 1) % 2 ^ k :=
    Nat.and_pow_two_sub_one_eq_mod _ _
  have h2k : 2 ≤ 2 ^ k := by
    calc 2 = 2 ^ 1 := rfl
    _ ≤ 2 ^ k := Nat.pow_le_pow_right (by norm_num) hk
  have hne : b.head ≠ (b.head + 1) % 2 ^ k := by
    rcases Nat.lt_or_ge (b.head + 1) (2 ^ k) with hlt | hge
    · rw [Nat.mod_eq_of_lt hlt]; omega
    · have heq : b.head + 1 = 2 ^ k := by omega
      rw [heq, Nat.mod_self]; omega
  constructor
  · simp [serialGetC, serialRxCancel, hmod, hne]
  · simp [serialGetC, serialRxCancel, hmod, hne]

/-- C9 witness: in a 1024-byte buffer with head 5 and tail 3, cancel then read
yields 24 (CAN) and then -1. -/
theorem serialRxCancel_then_getC_witness :
    (serialGetC 1024 (serialRxCancel 1024 ⟨fun _ => 0, 5, 3⟩)).1 = 24 ∧
    (serialGetC 1024 ((serialGetC 1024 (serialRxCancel 1024 ⟨fun _ => 0, 5, 3⟩)).2)).1 = -1 := by
  have h := serialRxCancel_then_getC 10 ⟨fun _ => 0, 5, 3⟩ (by norm_num) (by norm_num)
  exact h

end GrblHAL
